import Mathlib

/-!
Verification development for the transcriber pipeline
(`app/services/file_service.py`, `app/services/api_clients/openai_gpt4o.py`,
`app/models/transcription.py`).

Modelling conventions:
* All numeric values carried by the Python code (milliseconds, seconds,
  decibel levels, percentages) are modelled as exact rationals `ℚ`;
  Python `int(x)` (truncation toward zero) is `pyTrunc`.
* External effects are inputs: ffmpeg silence detection becomes either an
  explicit list of detected silence intervals or an oracle function of the
  detection parameters; the database becomes an association-list store;
  the thread pool becomes an explicit event trace.
* JSON round-trips of the progress log (`json.loads` / `json.dumps` of a
  list of strings) are modelled as the identity on `List String`.
-/

namespace Transcriber

/-- Python `int(x)` for a rational: truncation toward zero.
(`-⌊-q⌋ = ⌈q⌉`; it is written with `⌊⌋` only.) -/
def pyTrunc (q : ℚ) : ℤ :=
  if q < 0 then -⌊-q⌋ else ⌊q⌋

/-! Constants from the head of `app/services/file_service.py`. -/

def CHUNK_LENGTH_MS : ℚ := 500 * 1000

def CHUNK_MIN_LENGTH_MS : ℚ := 20 * 1000

def CHUNK_SPLIT_BACK_WINDOW_SEC : ℚ := 45

def CHUNK_SPLIT_FORWARD_WINDOW_SEC : ℚ := 15

def CHUNK_SPLIT_MIN_SILENCE_DUR : ℚ := 0.65

def CHUNK_SPLIT_NOISE_DB : ℚ := -30

def CHUNK_SPLIT_STEPS_MAX_DB : ℚ := -20

def CHUNK_SPLIT_STEPS_MIN_DB : ℚ := -45

def CHUNK_SPLIT_SILENCE_PERCENT_MIN : ℚ := 3

def CHUNK_SPLIT_SILENCE_PERCENT_MAX : ℚ := 25

/-- One silence interval as produced by `detect_silences_ffmpeg`:
a dict with keys "start", "end", "duration", in seconds. -/
structure Silence where
  startSec : ℚ
  endSec : ℚ
  durationSec : ℚ
deriving DecidableEq, Repr

/-- `compute_silence_percentage_from_intervals(silences, total_length_ms)`.

The input is the list of the "duration" fields of the silence dicts;
`none` models a missing or malformed (non-float) "duration" value, for
which the source falls back to `0.0` (`s.get("duration", 0.0)` with the
`TypeError/ValueError` handler).  Each duration is converted to
milliseconds and clamped below by 0 (`max(0.0, float(...) * 1000.0)`),
the sum is clamped above by the total length, and the percentage is
returned; a non-positive total length returns `0.0`. -/
def compute_silence_percentage_from_intervals
    (durations : List (Option ℚ)) (total_length_ms : ℚ) : ℚ :=
  if total_length_ms ≤ 0 then 0
  else
    let total_silence_ms :=
      durations.foldl (fun acc d => acc + max 0 (d.getD 0 * 1000)) 0
    let clamped := min total_silence_ms total_length_ms
    100 * clamped / total_length_ms

/-- The "duration" fields of a list of well-formed silence dicts. -/
def durationFields (silences : List Silence) : List (Option ℚ) :=
  silences.map (fun s => some s.durationSec)

/-! ## Segmenter: cut-point computation

`detect_silences_ffmpeg` is external I/O; for the single-pass variant the
detection result is a plain input list, for the deep variant it is an
oracle mapping the detection parameters `(noise_db, min_silence_dur,
start_time, finish_time)` to the detected intervals. -/

/-- Silence detection as a function of its parameters
(noise threshold dB, minimum silence duration s, window start s, window end s). -/
abbrev DetectOracle : Type := ℚ → ℚ → ℚ → ℚ → List Silence

/-- Pre-computed candidates `{"end_ms": int(s["end"]*1000),
"duration_ms": int(s["duration"]*1000)}` from both loops. -/
def silenceCandidates (silences : List Silence) : List (ℤ × ℤ) :=
  silences.map (fun s => (pyTrunc (s.endSec * 1000), pyTrunc (s.durationSec * 1000)))

/-- The candidate-selection loop shared by `compute_smart_segment_times`
and `get_best_silence_candidate`: scan the candidates, skip ends before
`last_cut_ms`, and among ends inside `[win_start, win_end]` keep the first
one of maximal duration (`best = None`, `best_dur = -1` initially;
strictly greater durations win). -/
def bestSilenceGo (last_cut_ms win_start win_end : ℚ) :
    List (ℤ × ℤ) → Option ℤ → ℤ → Option ℤ × ℤ
  | [], best, best_dur => (best, best_dur)
  | (e, d) :: rest, best, best_dur =>
      if (e : ℚ) < last_cut_ms then
        bestSilenceGo last_cut_ms win_start win_end rest best best_dur
      else if win_start ≤ (e : ℚ) ∧ (e : ℚ) ≤ win_end ∧ best_dur < d then
        bestSilenceGo last_cut_ms win_start win_end rest (some e) d
      else
        bestSilenceGo last_cut_ms win_start win_end rest best best_dur

/-- The number of iterations of `p = chunk_length_ms; while p < total:
p += chunk_length_ms`.  For `0 < L` the k-th nominal point `k·L` (k ≥ 1)
satisfies `k·L < D` iff `k ≤ ⌈D/L⌉ - 1 = -⌊-(D/L)⌋ - 1`.  For `L ≤ 0` the
source loop does not terminate whenever it is entered; theorems about the
segmenter therefore assume `0 < chunk_length_ms`. -/
def numNominalPoints (chunk_length_ms total_len_ms : ℚ) : ℕ :=
  if 0 < chunk_length_ms then (-⌊-(total_len_ms / chunk_length_ms)⌋ - 1).toNat else 0

/-- Nominal cut points `chunk_length_ms, 2*chunk_length_ms, ... < total_len_ms`. -/
def nominalPoints (chunk_length_ms total_len_ms : ℚ) : List ℚ :=
  (List.range (numNominalPoints chunk_length_ms total_len_ms)).map
    (fun i => ((i : ℚ) + 1) * chunk_length_ms)

/-- The adjustment loop of `compute_smart_segment_times`: for each nominal
point pick the best silence end in `[max(0, P - back), P + forward]`
(ends before the previous cut excluded), cut at `end - duration/2`
(a float division in the source), and clamp into
`[last_cut + 1, total - 1]`. -/
def smartAdjustGo (total_len_ms back_ms fwd_ms : ℚ) (cands : List (ℤ × ℤ)) :
    List ℚ → ℚ → List ℚ
  | [], _ => []
  | nominal :: rest, last_cut =>
      let win_start := max 0 (nominal - back_ms)
      let win_end := nominal + fwd_ms
      let best := bestSilenceGo last_cut win_start win_end cands none (-1)
      let cut0 : ℚ :=
        match best.1 with
        | none => nominal
        | some e => (e : ℚ) - (best.2 : ℚ) / 2
      let cut := max (last_cut + 1) (min cut0 (total_len_ms - 1))
      cut :: smartAdjustGo total_len_ms back_ms fwd_ms cands rest cut

/-- The final pass of `compute_smart_segment_times` (`prev = -1`; keep `t`
iff `t > prev` and `t < total - CHUNK_MIN_LENGTH_MS`; `prev` advances only
on kept points). -/
def smartFinalFilter (total_len_ms : ℚ) : List ℚ → ℚ → List ℚ
  | [], _ => []
  | t :: rest, prev =>
      if prev < t ∧ t < total_len_ms - CHUNK_MIN_LENGTH_MS then
        t :: smartFinalFilter total_len_ms rest t
      else
        smartFinalFilter total_len_ms rest prev

/-- `compute_smart_segment_times(input_file, chunk_length_ms, back_window_sec,
forward_window_sec, noise_db, min_silence_dur)`, with the duration probe
result `total_len_ms` and the whole-file silence-detection result
`silences` as inputs (the noise/duration parameters only feed detection). -/
def compute_smart_segment_times (total_len_ms : ℚ) (silences : List Silence)
    (chunk_length_ms back_window_sec forward_window_sec : ℚ) : List ℚ :=
  if total_len_ms ≤ 0 then []
  else
    let noms := nominalPoints chunk_length_ms total_len_ms
    if noms.isEmpty then []
    else
      let cands := silenceCandidates silences
      let adjusted := smartAdjustGo total_len_ms (back_window_sec * 1000)
        (forward_window_sec * 1000) cands noms 0
      smartFinalFilter total_len_ms adjusted (-1)

/-- `get_best_silence_candidate(silences, nominal_point_ms, back_window_sec,
forward_window_sec, finish_time)`: best in-window silence end, cut at
`int(end - duration/2)`, clamped into `[1, int(finish_time*1000) - 1]`
(the local `last_cut_ms` is always `0` in the source). -/
def get_best_silence_candidate (silences : List Silence) (nominal_point_ms : ℚ)
    (back_window_sec forward_window_sec finish_time : ℚ) : ℚ :=
  if silences.isEmpty then nominal_point_ms
  else
    let cands := silenceCandidates silences
    let win_start := max 0 (nominal_point_ms - back_window_sec * 1000)
    let win_end := nominal_point_ms + forward_window_sec * 1000
    let best := bestSilenceGo 0 win_start win_end cands none (-1)
    let cut : ℚ :=
      match best.1 with
      | none => nominal_point_ms
      | some e => (pyTrunc ((e : ℚ) - (best.2 : ℚ) / 2) : ℚ)
    max 1 (min cut ((pyTrunc (finish_time * 1000) : ℚ) - 1))

/-- State threaded through one nominal point of the deep search: the
Python locals `adjusted_points_ms[-1]`, `cut_point_found`, `prev_db`,
`silences` and `silence_percent` (`percent` starts at `0`; the source
only reads it on paths where it has been assigned). -/
structure DeepScanState where
  adjusted : ℚ
  found : Bool
  prevDb : ℚ
  silences : List Silence
  percent : ℚ

/-- The decibel levels tried by the downward loop (`db = noise_db + step`,
`step = -5`, `while db >= CHUNK_SPLIT_STEP_MIN_DB`). -/
def dbStepsDown (noise_db : ℚ) : List ℚ :=
  (List.range (⌊(noise_db - CHUNK_SPLIT_STEPS_MIN_DB) / 5⌋.toNat)).map
    (fun j => noise_db - 5 * ((j : ℚ) + 1))

/-- The decibel levels tried by the upward loop (`db = noise_db + step`,
`step = 5`, `while db <= CHUNK_SPLIT_STEP_MAX_DB`). -/
def dbStepsUp (noise_db : ℚ) : List ℚ :=
  (List.range (⌊(CHUNK_SPLIT_STEPS_MAX_DB - noise_db) / 5⌋.toNat)).map
    (fun j => noise_db + 5 * ((j : ℚ) + 1))

/-- The downward (quieter-threshold) loop of the deep search: re-detect at
each level; an empty result falls back to the previous silences and marks
the noise floor; accept when the silence percentage is in band, the noise
floor was reached, or the level is at the minimum; otherwise advance
`prev_db` and continue.  On acceptance `prev_db` keeps its pre-update
value, as in the source (`break` before `prev_db = db`). -/
def deepScanDown (detect : DetectOracle)
    (min_silence_dur point_start point_end point_len_ms nominal back fwd finish : ℚ) :
    List ℚ → List Silence → DeepScanState → DeepScanState
  | [], _, st => st
  | db :: rest, prevSil, st =>
      let s := detect db min_silence_dur point_start point_end
      if s.isEmpty ∧ prevSil.isEmpty then
        deepScanDown detect min_silence_dur point_start point_end point_len_ms nominal
          back fwd finish rest prevSil { st with prevDb := db }
      else
        let cur := if s.isEmpty then prevSil else s
        let noise_floor_reached := s.isEmpty
        let prevSil2 := if s.isEmpty then prevSil else s
        let pct := compute_silence_percentage_from_intervals (durationFields cur) point_len_ms
        if (CHUNK_SPLIT_SILENCE_PERCENT_MIN ≤ pct ∧ pct ≤ CHUNK_SPLIT_SILENCE_PERCENT_MAX)
            ∨ noise_floor_reached = true ∨ db - CHUNK_SPLIT_STEPS_MIN_DB < 0.1 then
          { st with
              adjusted := get_best_silence_candidate cur nominal back fwd finish,
              found := true, silences := cur, percent := pct }
        else
          deepScanDown detect min_silence_dur point_start point_end point_len_ms nominal
            back fwd finish rest prevSil2 { st with prevDb := db, silences := cur, percent := pct }

/-- The upward (louder-threshold) loop of the deep search: re-detect at
each level and accept only a result whose silence percentage is in band;
`silences`/`silence_percent` of the enclosing scope are untouched here
(the source uses the separate names `silences3`/`silence_percent3`). -/
def deepScanUp (detect : DetectOracle)
    (min_silence_dur point_start point_end point_len_ms nominal back fwd finish : ℚ) :
    List ℚ → DeepScanState → DeepScanState
  | [], st => st
  | db :: rest, st =>
      let s3 := detect db min_silence_dur point_start point_end
      if ¬ s3.isEmpty then
        let pct3 := compute_silence_percentage_from_intervals (durationFields s3) point_len_ms
        if CHUNK_SPLIT_SILENCE_PERCENT_MIN ≤ pct3 ∧ pct3 ≤ CHUNK_SPLIT_SILENCE_PERCENT_MAX then
          { st with
              adjusted := get_best_silence_candidate s3 nominal back fwd finish,
              found := true }
        else
          deepScanUp detect min_silence_dur point_start point_end point_len_ms nominal
            back fwd finish rest { st with prevDb := db }
      else
        deepScanUp detect min_silence_dur point_start point_end point_len_ms nominal
          back fwd finish rest { st with prevDb := db }

/-- One nominal point of `compute_smart_segment_times_deep`: windowed
silence detection at the initial threshold, the in-band/step-down/step-up
cascade, and the final single pass with `min_silence_dur = 0.5` at
`-20 dB`. -/
def deepAdjustNominal (detect : DetectOracle)
    (total_len_ms back_window_sec forward_window_sec noise_db min_silence_dur : ℚ)
    (nominal : ℚ) : ℚ :=
  let point_start := max 0 (nominal / 1000 - back_window_sec)
  let point_end := nominal / 1000 + forward_window_sec
  let point_len_ms : ℚ := (pyTrunc (point_end - point_start) : ℚ) * 1000
  let finish := total_len_ms / 1000
  let sil0 := detect noise_db min_silence_dur point_start point_end
  let st0 : DeepScanState :=
    { adjusted := nominal, found := false, prevDb := noise_db, silences := sil0, percent := 0 }
  let stA : DeepScanState :=
    if ¬ sil0.isEmpty then
      let pct0 := compute_silence_percentage_from_intervals (durationFields sil0) point_len_ms
      if (CHUNK_SPLIT_SILENCE_PERCENT_MIN ≤ pct0 ∧ pct0 ≤ CHUNK_SPLIT_SILENCE_PERCENT_MAX)
          ∨ noise_db - CHUNK_SPLIT_STEPS_MIN_DB < 0.1 then
        { st0 with
            adjusted := get_best_silence_candidate sil0 nominal back_window_sec
              forward_window_sec finish,
            found := true, percent := pct0 }
      else if CHUNK_SPLIT_SILENCE_PERCENT_MAX ≤ pct0 then
        deepScanDown detect min_silence_dur point_start point_end point_len_ms nominal
          back_window_sec forward_window_sec finish (dbStepsDown noise_db) sil0
          { st0 with percent := pct0 }
      else { st0 with percent := pct0 }
    else st0
  if (stA.silences.isEmpty ∨ stA.percent < CHUNK_SPLIT_SILENCE_PERCENT_MIN) ∧ stA.found = false then
    let stUp : DeepScanState :=
      if noise_db < CHUNK_SPLIT_STEPS_MAX_DB + 0.1 then
        deepScanUp detect min_silence_dur point_start point_end point_len_ms nominal
          back_window_sec forward_window_sec finish (dbStepsUp noise_db) stA
      else stA
    if (noise_db = CHUNK_SPLIT_STEPS_MAX_DB ∨ stUp.prevDb = CHUNK_SPLIT_STEPS_MAX_DB)
        ∧ stUp.found = false then
      let sil2 := detect CHUNK_SPLIT_STEPS_MAX_DB 0.5 point_start point_end
      if ¬ sil2.isEmpty then
        let pct2 := compute_silence_percentage_from_intervals (durationFields sil2) point_len_ms
        if pct2 < CHUNK_SPLIT_SILENCE_PERCENT_MAX then
          get_best_silence_candidate sil2 nominal back_window_sec forward_window_sec finish
        else stUp.adjusted
      else stUp.adjusted
    else stUp.adjusted
  else stA.adjusted

/-- The final pass of `compute_smart_segment_times_deep`: clamp each
adjusted point into `[last_cut + 1, total - 1]`, keep it only if it is
more than `CHUNK_MIN_LENGTH_MS` past the previous clamped cut and more
than `CHUNK_MIN_LENGTH_MS` before the end; `last_cut_ms` advances to the
clamped value even when the point is dropped. -/
def deepFinalFilter (total_len_ms : ℚ) : List ℚ → ℚ → List ℚ
  | [], _ => []
  | c :: rest, last_cut =>
      let cut := max (last_cut + 1) (min c (total_len_ms - 1))
      if last_cut + CHUNK_MIN_LENGTH_MS < cut ∧ cut < total_len_ms - CHUNK_MIN_LENGTH_MS then
        cut :: deepFinalFilter total_len_ms rest cut
      else
        deepFinalFilter total_len_ms rest cut

/-- `compute_smart_segment_times_deep(input_file, chunk_length_ms,
back_window_sec, forward_window_sec, noise_db, min_silence_dur)`, with the
duration probe result `total_len_ms` and the silence detector `detect`
as inputs. -/
def compute_smart_segment_times_deep (detect : DetectOracle) (total_len_ms : ℚ)
    (chunk_length_ms back_window_sec forward_window_sec noise_db min_silence_dur : ℚ) :
    List ℚ :=
  if total_len_ms ≤ 0 then []
  else
    let noms := nominalPoints chunk_length_ms total_len_ms
    if noms.isEmpty then []
    else
      let adjusted := noms.map (deepAdjustNominal detect total_len_ms back_window_sec
        forward_window_sec noise_db min_silence_dur)
      deepFinalFilter total_len_ms adjusted 0

/-! ## Splitting: chunk time ranges -/

/-- The number of chunks exported by `split_audio_file_pydup`:
iterations of `for i in range(0, total_length, chunk_length_ms)`,
i.e. `#{k ≥ 0 : k·cl < total} = ⌈total/cl⌉` for positive arguments. -/
def numPydupChunks (total_length chunk_length_ms : ℚ) : ℕ :=
  if 0 < chunk_length_ms ∧ 0 < total_length then (-⌊-(total_length / chunk_length_ms)⌋).toNat
  else 0

/-- Time ranges of the chunks exported by `split_audio_file_pydup`:
`audio[i : min(i + chunk_length_ms, total_length)]` for each start `i`. -/
def pydupChunkRanges (total_length chunk_length_ms : ℚ) : List (ℚ × ℚ) :=
  (List.range (numPydupChunks total_length chunk_length_ms)).map
    (fun i => ((i : ℚ) * chunk_length_ms, min (((i : ℚ) + 1) * chunk_length_ms) total_length))

/-- Time ranges of the files produced by `split_audio_file_fast_ffmpeg`
when segmenting at the given cut points (cut points + 1 files). -/
def rangesFromCutPoints (total_len_ms : ℚ) (cuts : List ℚ) : List (ℚ × ℚ) :=
  (0 :: cuts).zip (cuts ++ [total_len_ms])

/-- `split_audio_file(file_path, temp_dir, cb, chunk_length_ms)` for a
direct-copy container, at the level of chunk time ranges: compute the
deep cut points (`CHUNK_SPLIT_USE_DEEP_SEARCH` is `True`, and the call
passes the module constant `CHUNK_LENGTH_MS`, not the parameter); if any
were found, split at them with ffmpeg; otherwise fall back to
`split_audio_file_pydup` with the `chunk_length_ms` parameter. -/
def split_audio_file_ranges (detect : DetectOracle)
    (total_len_ms chunk_length_ms : ℚ) : List (ℚ × ℚ) :=
  let cut_points := compute_smart_segment_times_deep detect total_len_ms CHUNK_LENGTH_MS
    CHUNK_SPLIT_BACK_WINDOW_SEC CHUNK_SPLIT_FORWARD_WINDOW_SEC
    CHUNK_SPLIT_NOISE_DB CHUNK_SPLIT_MIN_SILENCE_DUR
  if cut_points.isEmpty then pydupChunkRanges total_len_ms chunk_length_ms
  else rangesFromCutPoints total_len_ms cut_points

/-! ## Segment-plan invariants (claims C1, C2, C8) -/

/-- The full set of plan invariants claimed for the segmenter: strictly
increasing cut points, every chunk (including the first and the last) at
least `CHUNK_MIN_LENGTH_MS` long, every cut strictly inside `(0, D)`. -/
def SegmentPlanOK (total_len_ms : ℚ) (pts : List ℚ) : Prop :=
  List.Chain' (· < ·) pts ∧
  List.Chain' (fun a b => CHUNK_MIN_LENGTH_MS ≤ b - a) (0 :: pts) ∧
  ∀ p ∈ pts, 0 < p ∧ p < total_len_ms ∧ CHUNK_MIN_LENGTH_MS ≤ total_len_ms - p

/-- The invariants the single-pass segmenter actually guarantees:
strict increase, interior cuts, and the final-chunk bound — but no
minimum gap between consecutive cuts and no first-chunk bound. -/
def SegmentPlanWeakOK (total_len_ms : ℚ) (pts : List ℚ) : Prop :=
  List.Chain' (· < ·) pts ∧
  ∀ p ∈ pts, 0 < p ∧ p < total_len_ms ∧ CHUNK_MIN_LENGTH_MS ≤ total_len_ms - p

/-- The silence detector that finds nothing anywhere. -/
def noSilenceDetect : DetectOracle := fun _ _ _ _ => []

/-! ## Orchestrator (`openai_gpt4o.py`)

`_transcribe_single_chunk_with_retry` is modelled over the sequence of
outcomes of its API attempts; `_split_and_transcribe` over the final
per-chunk results and the order in which the futures complete. -/

/-- Outcome of one API attempt for a chunk.  `success` carries the
parsed response text (`none`: response without a `text` field);
`transient` covers `RateLimitError`, `APIConnectionError`/`APIError`
and `OutputTokenLimitExceededError` (the handlers that sleep `2**attempt`
seconds and continue the loop); `fatal` covers `OpenAIError`,
`ValueError`, `FileNotFoundError` and unexpected exceptions (the handlers
that `break`). -/
inductive AttemptOutcome where
  | success (text : Option String)
  | transient
  | fatal
deriving DecidableEq

/-- The `max_retries` default of `_transcribe_single_chunk_with_retry`. -/
def MAX_RETRIES : ℕ := 3

/-- The `for attempt in range(max_retries)` loop: on success return
`text.strip() if text else ""`; on a transient failure record the
`2**attempt` second sleep and continue; on a fatal failure `break`.
Returns (result, backoff sleeps in seconds, attempts made). -/
def retryGo (outcomes : ℕ → AttemptOutcome) :
    ℕ → ℕ → List ℕ → Option String × List ℕ × ℕ
  | 0, attempt, sleeps => (none, sleeps, attempt)
  | fuel + 1, attempt, sleeps =>
      match outcomes attempt with
      | .success t => (some ((t.getD "").trim), sleeps, attempt + 1)
      | .transient => retryGo outcomes fuel (attempt + 1) (sleeps ++ [2 ^ attempt])
      | .fatal => (none, sleeps, attempt + 1)

/-- `_transcribe_single_chunk_with_retry` with the default
`max_retries=3` (no caller overrides it). -/
def transcribe_single_chunk_with_retry (outcomes : ℕ → AttemptOutcome) :
    Option String × List ℕ × ℕ :=
  retryGo outcomes MAX_RETRIES 0 []

/-- The `as_completed` collection loop of `_split_and_transcribe`:
process completed chunks in completion order, storing each text at its
original index (`results[idx] = chunk_text`); a `None` result (or an
exception, merged into `none` here) sets the error and breaks.  Returns
the results array and the error flag. -/
def collectGo (chunkResult : ℕ → Option String) :
    List ℕ → List (Option String) → List (Option String) × Bool
  | [], arr => (arr, false)
  | i :: rest, arr =>
      match chunkResult i with
      | none => (arr, true)
      | some t => collectGo chunkResult rest (arr.set i (some t))

/-- `_split_and_transcribe` result aggregation: `results` starts as
`[None] * total_chunks`; after collection, any error or missing result
fails the whole job, otherwise the texts are joined by
`" ".join(filter(None, results))` (which drops empty strings). -/
def split_and_transcribe (total_chunks : ℕ) (chunkResult : ℕ → Option String)
    (completionOrder : List ℕ) : Option String :=
  let collected := collectGo chunkResult completionOrder (List.replicate total_chunks none)
  if collected.2 = true ∨ collected.1.any (fun r => r.isNone) then none
  else some (String.intercalate " " ((collected.1.filterMap id).filter (fun t => t ≠ "")))

/-! ## Worker-pool traces (claim C7)

`_split_and_transcribe` submits every chunk task to the
`ThreadPoolExecutor` up front, before reading any result from
`as_completed`; the `with` block exits through `shutdown(wait=True)`,
which cancels nothing, so every submitted task starts and finishes
exactly once regardless of failures observed meanwhile.  A run is
modelled as a trace of start/finish events. -/

/-- One scheduling event of a pool run: chunk `i` starts executing, or
finishes with `ok = true` (a text result) or `ok = false` (a `None`
result or an exception). -/
inductive PoolEvent where
  | start (i : ℕ)
  | finish (i : ℕ) (ok : Bool)
deriving DecidableEq, Repr

/-- Structural well-formedness of a trace: a task starts only once and
only while fewer than `maxWorkers` tasks are running, finishes only
while running, and nothing is left running at the end. -/
def poolStepOk (maxWorkers : ℕ) : List PoolEvent → List ℕ → List ℕ → Bool
  | [], running, _ => running.isEmpty
  | .start i :: rest, running, done =>
      !(running.contains i) && !(done.contains i) &&
        decide (running.length < maxWorkers) &&
        poolStepOk maxWorkers rest (i :: running) done
  | .finish i _ :: rest, running, done =>
      running.contains i && poolStepOk maxWorkers rest (running.erase i) (i :: done)

/-- The chunk indices that start, in start order. -/
def startsOf (tr : List PoolEvent) : List ℕ :=
  tr.filterMap (fun e => match e with | .start i => some i | _ => none)

/-- The chunk indices that finish, in completion order — the order in
which `as_completed` yields the futures. -/
def finishOrder (tr : List PoolEvent) : List ℕ :=
  tr.filterMap (fun e => match e with | .finish i _ => some i | _ => none)

/-- A trace the code admits for a run of `n` submitted chunk tasks: it is
structurally well-formed, every submitted task starts and finishes
exactly once (`shutdown(wait=True)`, no cancellation), and no other
index appears. -/
def ValidPoolTrace (n maxWorkers : ℕ) (tr : List PoolEvent) : Prop :=
  poolStepOk maxWorkers tr [] [] = true ∧
  (∀ i < n, (startsOf tr).count i = 1 ∧ (finishOrder tr).count i = 1) ∧
  (∀ i ∈ startsOf tr, i < n) ∧ (∀ i ∈ finishOrder tr, i < n)

/-- The property claimed by the spec: once some chunk has finished with
a failure, no further task starts. -/
def noStartAfterFailureGo : List PoolEvent → Bool → Bool
  | [], _ => true
  | .start _ :: rest, failed => !failed && noStartAfterFailureGo rest failed
  | .finish _ ok :: rest, failed => noStartAfterFailureGo rest (failed || !ok)

def noStartAfterFailure (tr : List PoolEvent) : Bool :=
  noStartAfterFailureGo tr false

/-- The result flag of chunk `i`: the `ok` of its (unique, in a valid
trace) finish event. -/
def chunkFinishFlag (tr : List PoolEvent) (i : ℕ) : Option Bool :=
  tr.findSome? (fun e => match e with
    | .finish j ok => if j = i then some ok else none
    | _ => none)

/-- The job result of a traced run: the collection loop of
`_split_and_transcribe` applied to the per-chunk results in completion
order. -/
def traceJobResult (tr : List PoolEvent) (texts : ℕ → String) (n : ℕ) : Option String :=
  split_and_transcribe n
    (fun i => match chunkFinishFlag tr i with
      | some true => some (texts i)
      | _ => none)
    (finishOrder tr)

/-! ## Job tracker (`app/models/transcription.py`)

The `transcriptions` table is an association list from job ids to
records; `UPDATE ... WHERE id = ?` maps over all matching rows,
`SELECT` takes the first.  The JSON round-trip of `progress_log` is the
identity on the list of entries. -/

/-- One row of the `transcriptions` table (the columns the pipeline
touches; `created_at` is never read or updated after creation and is
omitted). -/
structure JobRecord where
  filename : String
  api_used : String
  status : String
  progress_log : List String
  transcription_text : Option String
  detected_language : Option String
  error_message : Option String
deriving DecidableEq, Repr

abbrev JobStore : Type := List (String × JobRecord)

/-- `SELECT ... WHERE id = ?` (first matching row). -/
def lookupJob (s : JobStore) (id : String) : Option JobRecord :=
  (s.find? (fun e => e.1 = id)).map (fun e => e.2)

/-- `UPDATE ... WHERE id = ?`: rewrite every row with the given id. -/
def updateWhere (s : JobStore) (id : String) (f : JobRecord → JobRecord) : JobStore :=
  s.map (fun e => if e.1 = id then (e.1, f e.2) else e)

/-- `create_transcription_job`: INSERT of a fresh `pending` row whose log
is seeded with "Job created.".  `id` is the PRIMARY KEY, so inserting an
existing id raises `sqlite3.IntegrityError`; that is modelled as leaving
the store unchanged. -/
def create_transcription_job (s : JobStore) (id filename api_used : String) : JobStore :=
  match lookupJob s id with
  | some _ => s
  | none =>
      (id, { filename := filename, api_used := api_used, status := "pending",
             progress_log := ["Job created."], transcription_text := none,
             detected_language := none, error_message := none }) :: s

/-- `update_job_progress`: SELECT the row; if present append the message
to its progress log, otherwise log a warning and change nothing. -/
def update_job_progress (s : JobStore) (id message : String) : JobStore :=
  match lookupJob s id with
  | none => s
  | some _ =>
      updateWhere s id (fun r => { r with progress_log := r.progress_log ++ [message] })

/-- `update_job_status`: unconditional `UPDATE transcriptions SET
status = ? WHERE id = ?` — no guard on the previous status. -/
def update_job_status (s : JobStore) (id status : String) : JobStore :=
  updateWhere s id (fun r => { r with status := status })

/-- `set_job_error`: append "ERROR: <message>" to the progress log (via
`update_job_progress`), then set status to `error` and store the
message. -/
def set_job_error (s : JobStore) (id error_message : String) : JobStore :=
  let s2 := update_job_progress s id ("ERROR: " ++ error_message)
  updateWhere s2 id (fun r =>
    { r with status := "error", error_message := some error_message })

/-- `finalize_job_success`: append "Transcription successful and saved."
to the log, then set status `finished`, store text and language and clear
the error message. -/
def finalize_job_success (s : JobStore) (id text language : String) : JobStore :=
  let s2 := update_job_progress s id "Transcription successful and saved."
  updateWhere s2 id (fun r =>
    { r with status := "finished", transcription_text := some text,
             detected_language := some language, error_message := none })

/-- The five Job Tracker operations. -/
inductive TrackerOp where
  | create (id filename api_used : String)
  | progress (id message : String)
  | markStatus (id status : String)
  | fail (id message : String)
  | succeed (id text language : String)
deriving DecidableEq

def applyOp (s : JobStore) : TrackerOp → JobStore
  | .create id fn api => create_transcription_job s id fn api
  | .progress id m => update_job_progress s id m
  | .markStatus id st => update_job_status s id st
  | .fail id m => set_job_error s id m
  | .succeed id t l => finalize_job_success s id t l

def applyOps (s : JobStore) (ops : List TrackerOp) : JobStore :=
  ops.foldl applyOp s

def statusOf (s : JobStore) (id : String) : Option String :=
  (lookupJob s id).map (fun r => r.status)

/-- The persisted transcript of a job (`none` when the job does not exist
or its `transcription_text` column is NULL). -/
def transcriptOf (s : JobStore) (id : String) : Option String :=
  match lookupJob s id with
  | none => none
  | some r => r.transcription_text

def isMarkStatus : TrackerOp → Bool
  | .markStatus _ _ => true
  | _ => false

def isSucceed : TrackerOp → Bool
  | .succeed _ _ _ => true
  | _ => false

def TerminalStatus (st : Option String) : Prop :=
  st = some "finished" ∨ st = some "error"

/-- A record in the `finished` state, used by concrete store examples. -/
def sampleFinishedJob : JobRecord :=
  { filename := "a.mp3", api_used := "gpt4o", status := "finished",
    progress_log := ["Job created."], transcription_text := some "hello world",
    detected_language := some "en", error_message := none }

/-- A freshly created record, used by concrete store examples. -/
def samplePendingJob : JobRecord :=
  { filename := "b.mp3", api_used := "gpt4o", status := "pending",
    progress_log := ["Job created."], transcription_text := none,
    detected_language := none, error_message := none }

/-! ## Lemmas and claim theorems -/

lemma silence_sum_nonneg (durations : List (Option ℚ)) (a : ℚ) (ha : 0 ≤ a) :
    0 ≤ durations.foldl (fun acc d => acc + max 0 (d.getD 0 * 1000)) a := by
  induction durations generalizing a with
  | nil => simpa using ha
  | cons d rest ih =>
      exact ih _ (add_nonneg ha (le_max_left _ _))

/-- Claim C9: for every list of silence intervals and every total window
length, `compute_silence_percentage_from_intervals` returns a value in
`[0, 100]`; it returns `0` whenever `total_length_ms ≤ 0`; a missing or
malformed duration (`none`) and a non-positive duration each contribute
exactly as a zero duration; and the summed silence is clamped to the
total length before the percentage is formed, which is what keeps the
result at or below 100. -/
theorem silence_percentage_in_range
    (durations : List (Option ℚ)) (total_length_ms : ℚ) :
    (0 ≤ compute_silence_percentage_from_intervals durations total_length_ms ∧
      compute_silence_percentage_from_intervals durations total_length_ms ≤ 100) ∧
    (total_length_ms ≤ 0 →
      compute_silence_percentage_from_intervals durations total_length_ms = 0) ∧
    (∀ rest : List (Option ℚ),
      compute_silence_percentage_from_intervals (none :: rest) total_length_ms =
        compute_silence_percentage_from_intervals (some 0 :: rest) total_length_ms) ∧
    (∀ d : ℚ, ∀ rest : List (Option ℚ), d ≤ 0 →
      compute_silence_percentage_from_intervals (some d :: rest) total_length_ms =
        compute_silence_percentage_from_intervals (some 0 :: rest) total_length_ms) := by
  refine ⟨?_, ?_, ?_, ?_⟩
  · unfold compute_silence_percentage_from_intervals
    by_cases h : total_length_ms ≤ 0
    · simp [h]
    · simp only [h, if_false]
      push_neg at h
      constructor
      · apply div_nonneg _ (le_of_lt h)
        have hsum := silence_sum_nonneg durations 0 le_rfl
        positivity
      · rw [div_le_iff₀ h]
        have hmin : min (durations.foldl
            (fun acc d => acc + max 0 (d.getD 0 * 1000)) 0) total_length_ms ≤
            total_length_ms := min_le_right _ _
        nlinarith [hmin]
  · intro h
    unfold compute_silence_percentage_from_intervals
    simp [h]
  · intro rest
    unfold compute_silence_percentage_from_intervals
    simp
  · intro d rest hd
    unfold compute_silence_percentage_from_intervals
    have : max 0 (d * 1000) = max 0 ((0 : ℚ) * 1000) := by
      simp only [zero_mul, max_self]
      exact max_eq_left (by nlinarith)
    simp [Option.getD, this]

/-- Witness for C9 at a concrete input: two intervals (0.65 s and a
malformed duration) in a 10 000 ms window, plus the degenerate window. -/
theorem silence_percentage_in_range_witness :
    ((0 ≤ compute_silence_percentage_from_intervals [some 0.65, none] 10000 ∧
      compute_silence_percentage_from_intervals [some 0.65, none] 10000 ≤ 100) ∧
     ((10000 : ℚ) ≤ 0 →
      compute_silence_percentage_from_intervals [some 0.65, none] 10000 = 0) ∧
     (∀ rest : List (Option ℚ),
      compute_silence_percentage_from_intervals (none :: rest) 10000 =
        compute_silence_percentage_from_intervals (some 0 :: rest) 10000) ∧
     (∀ d : ℚ, ∀ rest : List (Option ℚ), d ≤ 0 →
      compute_silence_percentage_from_intervals (some d :: rest) 10000 =
        compute_silence_percentage_from_intervals (some 0 :: rest) 10000)) ∧
    compute_silence_percentage_from_intervals [some 0.65, none] (-5) = 0 :=
  ⟨silence_percentage_in_range [some 0.65, none] 10000,
   (silence_percentage_in_range [some 0.65, none] (-5)).2.1 (by norm_num)⟩

lemma deepFinalFilter_mem (total_len_ms : ℚ) (l : List ℚ) (last_cut : ℚ) :
    ∀ p ∈ deepFinalFilter total_len_ms l last_cut,
      last_cut + CHUNK_MIN_LENGTH_MS < p ∧ p < total_len_ms - CHUNK_MIN_LENGTH_MS := by
  induction l generalizing last_cut with
  | nil => intro p hp; simp [deepFinalFilter] at hp
  | cons c rest ih =>
      intro p hp
      rw [deepFinalFilter] at hp
      set cut := max (last_cut + 1) (min c (total_len_ms - 1)) with hcut
      have hlt : last_cut < cut := lt_of_lt_of_le (by linarith) (le_max_left _ _)
      by_cases hcond : last_cut + CHUNK_MIN_LENGTH_MS < cut ∧
          cut < total_len_ms - CHUNK_MIN_LENGTH_MS
      · rw [if_pos hcond] at hp
        rcases List.mem_cons.mp hp with h | h
        · exact h ▸ hcond
        · have := ih cut p h
          exact ⟨by linarith [this.1], this.2⟩
      · rw [if_neg hcond] at hp
        have := ih cut p hp
        exact ⟨by linarith [this.1], this.2⟩

lemma deepFinalFilter_chain (total_len_ms : ℚ) (l : List ℚ) (last_cut : ℚ) :
    List.Chain' (fun a b => a + CHUNK_MIN_LENGTH_MS < b)
      (last_cut :: deepFinalFilter total_len_ms l last_cut) := by
  induction l generalizing last_cut with
  | nil => simp [deepFinalFilter]
  | cons c rest ih =>
      rw [deepFinalFilter]
      set cut := max (last_cut + 1) (min c (total_len_ms - 1)) with hcut
      have hlt : last_cut < cut := lt_of_lt_of_le (by linarith) (le_max_left _ _)
      by_cases hcond : last_cut + CHUNK_MIN_LENGTH_MS < cut ∧
          cut < total_len_ms - CHUNK_MIN_LENGTH_MS
      · rw [if_pos hcond]
        exact List.chain'_cons.mpr ⟨hcond.1, ih cut⟩
      · rw [if_neg hcond]
        refine List.chain'_cons'.mpr ⟨?_, (List.chain'_cons'.mp (ih cut)).2⟩
        intro b hb
        have hmem := deepFinalFilter_mem total_len_ms rest cut b (List.mem_of_mem_head? hb)
        linarith [hmem.1]

lemma smartFinalFilter_mem (total_len_ms : ℚ) (l : List ℚ) (prev : ℚ) :
    ∀ p ∈ smartFinalFilter total_len_ms l prev,
      prev < p ∧ p < total_len_ms - CHUNK_MIN_LENGTH_MS := by
  induction l generalizing prev with
  | nil => intro p hp; simp [smartFinalFilter] at hp
  | cons t rest ih =>
      intro p hp
      rw [smartFinalFilter] at hp
      by_cases hcond : prev < t ∧ t < total_len_ms - CHUNK_MIN_LENGTH_MS
      · rw [if_pos hcond] at hp
        rcases List.mem_cons.mp hp with h | h
        · exact h ▸ hcond
        · have := ih t p h
          exact ⟨lt_trans hcond.1 this.1, this.2⟩
      · rw [if_neg hcond] at hp
        exact ih prev p hp

lemma smartFinalFilter_chain (total_len_ms : ℚ) (l : List ℚ) (prev : ℚ) :
    List.Chain' (· < ·) (prev :: smartFinalFilter total_len_ms l prev) := by
  induction l generalizing prev with
  | nil => simp [smartFinalFilter]
  | cons t rest ih =>
      rw [smartFinalFilter]
      by_cases hcond : prev < t ∧ t < total_len_ms - CHUNK_MIN_LENGTH_MS
      · rw [if_pos hcond]
        exact List.chain'_cons.mpr ⟨hcond.1, ih t⟩
      · rw [if_neg hcond]
        exact ih prev

lemma smartFinalFilter_subset (total_len_ms : ℚ) (l : List ℚ) (prev : ℚ) :
    ∀ p ∈ smartFinalFilter total_len_ms l prev, p ∈ l := by
  induction l generalizing prev with
  | nil => intro p hp; simp [smartFinalFilter] at hp
  | cons t rest ih =>
      intro p hp
      rw [smartFinalFilter] at hp
      by_cases hcond : prev < t ∧ t < total_len_ms - CHUNK_MIN_LENGTH_MS
      · rw [if_pos hcond] at hp
        rcases List.mem_cons.mp hp with h | h
        · exact h ▸ List.mem_cons_self t rest
        · exact List.mem_cons_of_mem t (ih t p h)
      · rw [if_neg hcond] at hp
        exact List.mem_cons_of_mem t (ih prev p hp)

lemma smartAdjustGo_mem (total_len_ms back_ms fwd_ms : ℚ) (cands : List (ℤ × ℤ))
    (noms : List ℚ) (last_cut : ℚ) :
    ∀ c ∈ smartAdjustGo total_len_ms back_ms fwd_ms cands noms last_cut, last_cut < c := by
  induction noms generalizing last_cut with
  | nil => intro c hc; simp [smartAdjustGo] at hc
  | cons nominal rest ih =>
      intro c hc
      rw [smartAdjustGo] at hc
      set cut := max (last_cut + 1)
        (min (match (bestSilenceGo last_cut (max 0 (nominal - back_ms)) (nominal + fwd_ms)
            cands none (-1)).1 with
          | none => nominal
          | some e => (e : ℚ) - ((bestSilenceGo last_cut (max 0 (nominal - back_ms))
              (nominal + fwd_ms) cands none (-1)).2 : ℚ) / 2) (total_len_ms - 1)) with hcut
      have hlt : last_cut < cut := lt_of_lt_of_le (by linarith) (le_max_left _ _)
      rcases List.mem_cons.mp hc with h | h
      · exact h ▸ hlt
      · exact lt_trans hlt (ih cut c h)

lemma chunk_min_pos : (0 : ℚ) < CHUNK_MIN_LENGTH_MS := by
  norm_num [CHUNK_MIN_LENGTH_MS]

/-- Claim C1, amended: for every duration, every positive target chunk
length and every silence-detection outcome, the deep segmenter satisfies
all claimed plan invariants (strictly increasing cut points, every chunk
at least `CHUNK_MIN_LENGTH_MS`, cuts strictly inside `(0, D)`).  The
single-pass `compute_smart_segment_times` guarantees strict increase,
interior cuts and the final-chunk bound, but not the minimum chunk
length for the first chunk or between consecutive cuts (see the
counterexample). -/
theorem segment_plan_invariants (detect : DetectOracle) (silences : List Silence)
    (total_len_ms chunk_length_ms back_window_sec forward_window_sec noise_db
      min_silence_dur : ℚ) (hL : 0 < chunk_length_ms) :
    SegmentPlanOK total_len_ms
      (compute_smart_segment_times_deep detect total_len_ms chunk_length_ms
        back_window_sec forward_window_sec noise_db min_silence_dur) ∧
    SegmentPlanWeakOK total_len_ms
      (compute_smart_segment_times total_len_ms silences chunk_length_ms
        back_window_sec forward_window_sec) := by
  constructor
  · unfold compute_smart_segment_times_deep
    by_cases h0 : total_len_ms ≤ 0
    · simp [h0, SegmentPlanOK]
    · rw [if_neg h0]
      by_cases hnil : (nominalPoints chunk_length_ms total_len_ms).isEmpty
      · simp [hnil, SegmentPlanOK]
      · simp only [hnil, if_false, Bool.false_eq_true]
        set adjusted := (nominalPoints chunk_length_ms total_len_ms).map
          (deepAdjustNominal detect total_len_ms back_window_sec forward_window_sec
            noise_db min_silence_dur) with hadj
        have hchain := deepFinalFilter_chain total_len_ms adjusted 0
        have hmem := deepFinalFilter_mem total_len_ms adjusted 0
        refine ⟨?_, ?_, ?_⟩
        · exact ((List.chain'_cons'.mp hchain).2).imp
            (fun a b hab => by linarith [chunk_min_pos])
        · exact hchain.imp (fun a b hab => by linarith)
        · intro p hp
          have := hmem p hp
          refine ⟨by linarith [chunk_min_pos, this.1], by linarith [chunk_min_pos, this.2],
            by linarith [this.2]⟩
  · unfold compute_smart_segment_times
    by_cases h0 : total_len_ms ≤ 0
    · simp [h0, SegmentPlanWeakOK]
    · rw [if_neg h0]
      by_cases hnil : (nominalPoints chunk_length_ms total_len_ms).isEmpty
      · simp [hnil, SegmentPlanWeakOK]
      · simp only [hnil, if_false, Bool.false_eq_true]
        set adjusted := smartAdjustGo total_len_ms (back_window_sec * 1000)
          (forward_window_sec * 1000) (silenceCandidates silences)
          (nominalPoints chunk_length_ms total_len_ms) 0 with hadj
        have hchain := smartFinalFilter_chain total_len_ms adjusted (-1)
        have hmem := smartFinalFilter_mem total_len_ms adjusted (-1)
        refine ⟨(List.chain'_cons'.mp hchain).2, ?_⟩
        intro p hp
        have hin := smartFinalFilter_subset total_len_ms adjusted (-1) p hp
        have hpos := smartAdjustGo_mem total_len_ms (back_window_sec * 1000)
          (forward_window_sec * 1000) (silenceCandidates silences)
          (nominalPoints chunk_length_ms total_len_ms) 0 p hin
        have := hmem p hp
        exact ⟨hpos, by linarith [chunk_min_pos, this.2], by linarith [this.2]⟩

/-- Witness for the amended C1 at a concrete instantiation
(20-minute-scale audio, the default 500 s target, the all-empty and a
one-interval detection outcome). -/
theorem segment_plan_invariants_witness :
    (0 : ℚ) < 500000 ∧
    (SegmentPlanOK 1100000
      (compute_smart_segment_times_deep (fun _ _ _ _ => []) 1100000 500000 45 15 (-30) 0.65) ∧
     SegmentPlanWeakOK 1100000
      (compute_smart_segment_times 1100000 [⟨55, 955, 900⟩] 500000 45 15)) :=
  ⟨by norm_num,
   segment_plan_invariants (fun _ _ _ _ => []) [⟨55, 955, 900⟩] 1100000 500000 45 15
     (-30) 0.65 (by norm_num)⟩

lemma smart_eval_nominal : nominalPoints 500000 1100000 = [500000, 1000000] := by
  have hn : numNominalPoints 500000 1100000 = 2 := by
    unfold numNominalPoints
    norm_num
    decide
  unfold nominalPoints
  rw [hn]
  norm_num [List.range_succ]

lemma smart_eval_counterexample :
    compute_smart_segment_times 1100000 [⟨55, 955, 900⟩] 500000 45 15 = [500000, 505000] := by
  unfold compute_smart_segment_times
  rw [if_neg (by norm_num)]
  rw [smart_eval_nominal]
  norm_num [silenceCandidates, pyTrunc, smartAdjustGo, bestSilenceGo, smartFinalFilter,
    CHUNK_MIN_LENGTH_MS]

/-- Counterexample to C1 as stated: with a 1100 s file, 500 s target and
a single 900 s silence interval ending at 955 s, the single-pass
segmenter returns the cut points `[500000, 505000]` — only 5000 ms
apart, far less than `CHUNK_MIN_LENGTH_MS = 20000`.  (The cut for the
second nominal point, `955000 - 900000/2 = 505000`, lands just after the
first cut and the final pass only requires `t > prev`.) -/
theorem smart_segment_min_gap_counterexample :
    compute_smart_segment_times 1100000 [⟨55, 955, 900⟩] 500000 45 15 = [500000, 505000] ∧
    ¬ SegmentPlanOK 1100000
        (compute_smart_segment_times 1100000 [⟨55, 955, 900⟩] 500000 45 15) := by
  refine ⟨smart_eval_counterexample, ?_⟩
  rw [smart_eval_counterexample]
  rintro ⟨-, hchain, -⟩
  have h2 := (List.chain'_cons.mp (List.chain'_cons.mp hchain).2).1
  norm_num [CHUNK_MIN_LENGTH_MS] at h2

lemma deep_eval_nominal_510 : nominalPoints CHUNK_LENGTH_MS 510000 = [500000] := by
  have hn : numNominalPoints CHUNK_LENGTH_MS 510000 = 1 := by
    unfold numNominalPoints CHUNK_LENGTH_MS
    norm_num
  unfold nominalPoints
  rw [hn]
  norm_num [List.range_succ, CHUNK_LENGTH_MS]

lemma deep_eval_510_empty :
    compute_smart_segment_times_deep noSilenceDetect 510000 CHUNK_LENGTH_MS
      CHUNK_SPLIT_BACK_WINDOW_SEC CHUNK_SPLIT_FORWARD_WINDOW_SEC
      CHUNK_SPLIT_NOISE_DB CHUNK_SPLIT_MIN_SILENCE_DUR = [] := by
  unfold compute_smart_segment_times_deep
  rw [if_neg (by norm_num)]
  rw [deep_eval_nominal_510]
  have hsteps : dbStepsUp (-30) = [-25, -20] := by
    have hc : ⌊((CHUNK_SPLIT_STEPS_MAX_DB - (-30 : ℚ)) / 5)⌋.toNat = 2 := by
      norm_num [CHUNK_SPLIT_STEPS_MAX_DB]
      decide
    unfold dbStepsUp
    rw [hc]
    norm_num [List.range_succ]
  norm_num [deepAdjustNominal, noSilenceDetect, hsteps, deepScanUp, deepFinalFilter,
    pyTrunc, CHUNK_SPLIT_NOISE_DB, CHUNK_SPLIT_STEPS_MAX_DB, CHUNK_SPLIT_STEPS_MIN_DB,
    CHUNK_SPLIT_BACK_WINDOW_SEC, CHUNK_SPLIT_FORWARD_WINDOW_SEC,
    CHUNK_MIN_LENGTH_MS]

/-- Counterexample to C2 as stated: a 510 s asset is shorter than
`targetChunkMs + minChunkMs = 520 s`, and with no detectable silences the
plan is indeed empty — but the fallback pydub splitter then cuts at
`chunk_length_ms`, producing two chunks (500 s and 10 s), not one chunk
equal to the whole asset.  (The short-input guard and the
`return [file_path]` are both commented out in `split_audio_file`.) -/
theorem short_asset_split_counterexample :
    (510000 : ℚ) < CHUNK_LENGTH_MS + CHUNK_MIN_LENGTH_MS ∧
    compute_smart_segment_times_deep noSilenceDetect 510000 CHUNK_LENGTH_MS
      CHUNK_SPLIT_BACK_WINDOW_SEC CHUNK_SPLIT_FORWARD_WINDOW_SEC
      CHUNK_SPLIT_NOISE_DB CHUNK_SPLIT_MIN_SILENCE_DUR = [] ∧
    split_audio_file_ranges noSilenceDetect 510000 CHUNK_LENGTH_MS =
      [(0, 500000), (500000, 510000)] ∧
    (split_audio_file_ranges noSilenceDetect 510000 CHUNK_LENGTH_MS).length ≠ 1 := by
  have hsplit : split_audio_file_ranges noSilenceDetect 510000 CHUNK_LENGTH_MS =
      [(0, 500000), (500000, 510000)] := by
    unfold split_audio_file_ranges
    rw [deep_eval_510_empty]
    have hn : numPydupChunks 510000 CHUNK_LENGTH_MS = 2 := by
      unfold numPydupChunks CHUNK_LENGTH_MS
      norm_num
      decide
    simp only [List.isEmpty_nil, if_true]
    unfold pydupChunkRanges
    rw [hn]
    norm_num [List.range_succ, CHUNK_LENGTH_MS]
  refine ⟨by norm_num [CHUNK_LENGTH_MS, CHUNK_MIN_LENGTH_MS], deep_eval_510_empty, hsplit, ?_⟩
  rw [hsplit]
  norm_num

/-- Claim C2, amended: only for assets no longer than `targetChunkMs`
(rather than `targetChunkMs + minChunkMs`) is the plan always empty, and
the splitter then produces exactly one chunk spanning the whole asset —
via the pydub fallback, which re-encodes rather than leaving the original
file untouched.  For durations strictly between `targetChunkMs` and
`targetChunkMs + minChunkMs` the fallback yields two chunks (see the
counterexample). -/
theorem short_asset_single_chunk (detect : DetectOracle) (total_len_ms : ℚ)
    (h0 : 0 < total_len_ms) (hD : total_len_ms ≤ CHUNK_LENGTH_MS) :
    compute_smart_segment_times_deep detect total_len_ms CHUNK_LENGTH_MS
      CHUNK_SPLIT_BACK_WINDOW_SEC CHUNK_SPLIT_FORWARD_WINDOW_SEC
      CHUNK_SPLIT_NOISE_DB CHUNK_SPLIT_MIN_SILENCE_DUR = [] ∧
    split_audio_file_ranges detect total_len_ms CHUNK_LENGTH_MS = [(0, total_len_ms)] := by
  have hLpos : (0 : ℚ) < CHUNK_LENGTH_MS := by norm_num [CHUNK_LENGTH_MS]
  have hx : 0 < total_len_ms / CHUNK_LENGTH_MS := div_pos h0 hLpos
  have hx1 : total_len_ms / CHUNK_LENGTH_MS ≤ 1 := (div_le_one hLpos).mpr hD
  have hfl : ⌊-(total_len_ms / CHUNK_LENGTH_MS)⌋ = -1 := by
    rw [Int.floor_eq_iff]
    constructor
    · push_cast; linarith
    · push_cast; linarith
  have hnoms : nominalPoints CHUNK_LENGTH_MS total_len_ms = [] := by
    unfold nominalPoints numNominalPoints
    rw [if_pos hLpos, hfl]
    simp
  have hdeep : compute_smart_segment_times_deep detect total_len_ms CHUNK_LENGTH_MS
      CHUNK_SPLIT_BACK_WINDOW_SEC CHUNK_SPLIT_FORWARD_WINDOW_SEC
      CHUNK_SPLIT_NOISE_DB CHUNK_SPLIT_MIN_SILENCE_DUR = [] := by
    unfold compute_smart_segment_times_deep
    rw [if_neg (by linarith), hnoms]
    simp
  refine ⟨hdeep, ?_⟩
  unfold split_audio_file_ranges
  rw [hdeep]
  have hn : numPydupChunks total_len_ms CHUNK_LENGTH_MS = 1 := by
    unfold numPydupChunks
    rw [if_pos ⟨hLpos, h0⟩, hfl]
    simp
  simp only [List.isEmpty_nil, if_true]
  unfold pydupChunkRanges
  rw [hn]
  have hr1 : List.range 1 = [0] := rfl
  rw [hr1]
  simp [min_eq_right hD]

/-- Witness for the amended C2 at a 400 s asset with no silences. -/
theorem short_asset_single_chunk_witness :
    ((0 : ℚ) < 400000 ∧ (400000 : ℚ) ≤ CHUNK_LENGTH_MS) ∧
    (compute_smart_segment_times_deep noSilenceDetect 400000 CHUNK_LENGTH_MS
      CHUNK_SPLIT_BACK_WINDOW_SEC CHUNK_SPLIT_FORWARD_WINDOW_SEC
      CHUNK_SPLIT_NOISE_DB CHUNK_SPLIT_MIN_SILENCE_DUR = [] ∧
    split_audio_file_ranges noSilenceDetect 400000 CHUNK_LENGTH_MS = [(0, 400000)]) :=
  ⟨⟨by norm_num, by norm_num [CHUNK_LENGTH_MS]⟩,
   short_asset_single_chunk noSilenceDetect 400000 (by norm_num)
     (by norm_num [CHUNK_LENGTH_MS])⟩

/-- Claim C8: the cut-point computation is a pure function of the asset
length, the parameters and the silence-detection results — two runs whose
silence detection agrees pointwise return identical cut points, for both
the deep and the single-pass variant. -/
theorem segmenter_deterministic (detect₁ detect₂ : DetectOracle)
    (silences : List Silence)
    (total_len_ms chunk_length_ms back_window_sec forward_window_sec noise_db
      min_silence_dur : ℚ)
    (h : ∀ a b c d, detect₁ a b c d = detect₂ a b c d) :
    compute_smart_segment_times_deep detect₁ total_len_ms chunk_length_ms
      back_window_sec forward_window_sec noise_db min_silence_dur =
    compute_smart_segment_times_deep detect₂ total_len_ms chunk_length_ms
      back_window_sec forward_window_sec noise_db min_silence_dur ∧
    compute_smart_segment_times total_len_ms silences chunk_length_ms
      back_window_sec forward_window_sec =
    compute_smart_segment_times total_len_ms silences chunk_length_ms
      back_window_sec forward_window_sec := by
  have hdet : detect₁ = detect₂ :=
    funext fun a => funext fun b => funext fun c => funext fun d => h a b c d
  exact ⟨by rw [hdet], rfl⟩

/-- Witness for C8: two syntactically distinct but pointwise equal
detectors on the 1100 s input. -/
theorem segmenter_deterministic_witness :
    compute_smart_segment_times_deep noSilenceDetect 1100000 500000 45 15 (-30) 0.65 =
      compute_smart_segment_times_deep (fun _ _ _ _ => ([] : List Silence)) 1100000
        500000 45 15 (-30) 0.65 ∧
    compute_smart_segment_times 1100000 [⟨55, 955, 900⟩] 500000 45 15 =
      compute_smart_segment_times 1100000 [⟨55, 955, 900⟩] 500000 45 15 :=
  segmenter_deterministic noSilenceDetect (fun _ _ _ _ => []) [⟨55, 955, 900⟩]
    1100000 500000 45 15 (-30) 0.65 (fun _ _ _ _ => rfl)

lemma collectGo_err (chunkResult : ℕ → Option String) (order : List ℕ)
    (arr : List (Option String)) (h : ∃ i ∈ order, chunkResult i = none) :
    (collectGo chunkResult order arr).2 = true := by
  induction order generalizing arr with
  | nil => obtain ⟨i, hi, -⟩ := h; simp at hi
  | cons j rest ih =>
      obtain ⟨i, hi, hnone⟩ := h
      rw [collectGo]
      rcases List.mem_cons.mp hi with rfl | hmem
      · rw [hnone]
      · cases hj : chunkResult j with
        | none => rfl
        | some t => exact ih _ ⟨i, hmem, hnone⟩

/-- Shared failure lemma: if any collected chunk reports failure, the
whole job result is `none`. -/
lemma split_and_transcribe_none_of_failure (total_chunks : ℕ)
    (chunkResult : ℕ → Option String) (order : List ℕ)
    (h : ∃ i ∈ order, chunkResult i = none) :
    split_and_transcribe total_chunks chunkResult order = none := by
  unfold split_and_transcribe
  rw [if_pos (Or.inl (collectGo_err chunkResult order _ h))]

lemma collectGo_ok_snd (f : ℕ → String) (order : List ℕ) (arr : List (Option String)) :
    (collectGo (fun i => some (f i)) order arr).2 = false := by
  induction order generalizing arr with
  | nil => rfl
  | cons j rest ih => simp only [collectGo]; exact ih _

lemma collectGo_ok_getElem? (f : ℕ → String) (order : List ℕ)
    (arr : List (Option String)) (j : ℕ) :
    (collectGo (fun i => some (f i)) order arr).1[j]? =
      if j ∈ order ∧ j < arr.length then some (some (f j)) else arr[j]? := by
  induction order generalizing arr with
  | nil => simp [collectGo]
  | cons i rest ih =>
      simp only [collectGo]
      rw [ih, List.getElem?_set, List.length_set]
      by_cases hi : i = j
      · subst hi
        by_cases hlen : i < arr.length
        · simp [hlen, List.mem_cons]
        · simp [hlen, List.getElem?_eq_none (le_of_not_lt hlen)]
      · have hji : ¬ j = i := fun h => hi h.symm
        by_cases hjr : j ∈ rest
        · simp [hjr, hi, List.mem_cons]
        · simp [hjr, hji, hi, List.mem_cons]

lemma collectGo_fill (texts : List String) (order : List ℕ)
    (hcov : ∀ i < texts.length, i ∈ order) :
    (collectGo (fun i => some (texts.getD i "")) order
        (List.replicate texts.length none)).1 = texts.map some := by
  apply List.ext_getElem?
  intro j
  rw [collectGo_ok_getElem?]
  by_cases hj : j < texts.length
  · rw [if_pos ⟨hcov j hj, by simpa using hj⟩]
    rw [List.getElem?_map, List.getElem?_eq_getElem hj]
    simp [List.getD_eq_getElem texts "" hj, List.getElem?_eq_getElem hj]
  · rw [if_neg (by simp [hj])]
    rw [List.getElem?_eq_none (by simpa using le_of_not_lt hj),
      List.getElem?_eq_none (by simpa using le_of_not_lt hj)]

lemma split_and_transcribe_covering (texts : List String) (order : List ℕ)
    (hcov : ∀ i < texts.length, i ∈ order) :
    split_and_transcribe texts.length (fun i => some (texts.getD i "")) order =
      some (String.intercalate " " (texts.filter (fun t => t ≠ ""))) := by
  have h2 := collectGo_ok_snd (fun i => texts.getD i "") order
    (List.replicate texts.length none)
  have h1 := collectGo_fill texts order hcov
  simp only [split_and_transcribe, h1, h2]
  have hany : (texts.map some).any (fun r => r.isNone) = false := by
    simp [List.any_map, Function.comp]
  have hfm : (texts.map some).filterMap id = texts := by
    rw [List.filterMap_map]
    simp
  simp [hany, hfm]

/-- Claim C3: the aggregated transcript is determined by the
index-to-text mapping alone.  For any two completion orders that cover
every chunk index, `_split_and_transcribe` produces the same aggregate,
namely the non-empty chunk texts joined by single spaces in index
order. -/
theorem aggregation_order_invariant (texts : List String) (order₁ order₂ : List ℕ)
    (h₁ : ∀ i < texts.length, i ∈ order₁) (h₂ : ∀ i < texts.length, i ∈ order₂) :
    split_and_transcribe texts.length (fun i => some (texts.getD i "")) order₁ =
      split_and_transcribe texts.length (fun i => some (texts.getD i "")) order₂ ∧
    split_and_transcribe texts.length (fun i => some (texts.getD i "")) order₁ =
      some (String.intercalate " " (texts.filter (fun t => t ≠ ""))) :=
  ⟨(split_and_transcribe_covering texts order₁ h₁).trans
      (split_and_transcribe_covering texts order₂ h₂).symm,
   split_and_transcribe_covering texts order₁ h₁⟩

/-- Witness for C3: three chunk texts (one empty), completed in reverse
order versus index order. -/
theorem aggregation_order_invariant_witness :
    (split_and_transcribe 3 (fun i => some (["C1", "", "C3"].getD i "")) [2, 1, 0] =
      split_and_transcribe 3 (fun i => some (["C1", "", "C3"].getD i "")) [0, 1, 2] ∧
    split_and_transcribe 3 (fun i => some (["C1", "", "C3"].getD i "")) [2, 1, 0] =
      some (String.intercalate " " (["C1", "", "C3"].filter (fun t => t ≠ "")))) :=
  aggregation_order_invariant ["C1", "", "C3"] [2, 1, 0] [0, 1, 2]
    (by decide) (by decide)

lemma retryGo_attempts_le (outcomes : ℕ → AttemptOutcome) (fuel attempt : ℕ)
    (sleeps : List ℕ) :
    (retryGo outcomes fuel attempt sleeps).2.2 ≤ attempt + fuel := by
  induction fuel generalizing attempt sleeps with
  | zero => simp [retryGo]
  | succ f ih =>
      rw [retryGo]
      cases outcomes attempt with
      | success t => simp
      | transient => exact le_trans (ih (attempt + 1) _) (by omega)
      | fatal => simp

lemma retryGo_transient_steps (outcomes : ℕ → AttemptOutcome) (k : ℕ) :
    ∀ (fuel a : ℕ) (sleeps : List ℕ), k ≤ fuel →
      (∀ i < k, outcomes (a + i) = .transient) →
      retryGo outcomes fuel a sleeps =
        retryGo outcomes (fuel - k) (a + k)
          (sleeps ++ (List.range k).map (fun i => 2 ^ (a + i))) := by
  induction k with
  | zero => intro fuel a sleeps _ _; simp
  | succ k ih =>
      intro fuel a sleeps hk h
      obtain ⟨f, rfl⟩ : ∃ f, fuel = f + 1 := ⟨fuel - 1, by omega⟩
      have h0 : outcomes a = .transient := by simpa using h 0 (by omega)
      rw [retryGo, h0]
      have := ih f (a + 1) (sleeps ++ [2 ^ a]) (by omega)
        (fun i hi => by rw [show a + 1 + i = a + (i + 1) by omega]; exact h (i + 1) (by omega))
      rw [this, show f + 1 - (k + 1) = f - k by omega,
        show a + (k + 1) = a + 1 + k by omega]
      have hlist : sleeps ++ [2 ^ a] ++ (List.range k).map (fun i => 2 ^ (a + 1 + i)) =
          sleeps ++ (List.range (k + 1)).map (fun i => 2 ^ (a + i)) := by
        rw [List.append_assoc]
        congr 1
        rw [List.range_succ_eq_map, List.map_cons, List.map_map]
        have hhead : (2 : ℕ) ^ a = 2 ^ (a + 0) := by simp
        have htail : List.map (fun i => 2 ^ (a + 1 + i)) (List.range k) =
            List.map ((fun i => 2 ^ (a + i)) ∘ Nat.succ) (List.range k) := by
          apply List.map_congr_left
          intro i _
          simp only [Function.comp_apply]
          have : a + 1 + i = a + Nat.succ i := by omega
          rw [this]
        rw [List.singleton_append, hhead, htail]
      rw [hlist]

/-- Claim C4: per-chunk retry policy.  A chunk is attempted at most
`MAX_RETRIES = 3` times.  If the first `k` attempts fail transiently,
each attempt `i` is followed by a `2^i` second backoff; a success on
attempt `k` then returns the stripped text of that attempt (with exactly
the backoffs of the earlier transient attempts), while a fatal failure on
attempt `k` ends the chunk right there (same backoff list, no further
attempts).  A chunk whose three attempts all fail transiently returns
`none` after backoffs `[1, 2, 4]` — and any chunk returning `none` fails
the whole job. -/
theorem chunk_retry_policy (outcomes : ℕ → AttemptOutcome) (k : ℕ) (t : Option String)
    (hk : k < MAX_RETRIES) (hpre : ∀ i < k, outcomes i = .transient) :
    ((transcribe_single_chunk_with_retry outcomes).2.2 ≤ MAX_RETRIES) ∧
    (outcomes k = .success t →
      transcribe_single_chunk_with_retry outcomes =
        (some ((t.getD "").trim), (List.range k).map (fun i => 2 ^ i), k + 1)) ∧
    (outcomes k = .fatal →
      transcribe_single_chunk_with_retry outcomes =
        (none, (List.range k).map (fun i => 2 ^ i), k + 1)) ∧
    (∀ g : ℕ → AttemptOutcome, (∀ i < MAX_RETRIES, g i = .transient) →
      transcribe_single_chunk_with_retry g = (none, [1, 2, 4], MAX_RETRIES)) ∧
    (∀ (m : ℕ) (cr : ℕ → Option String) (order : List ℕ),
      (∃ i ∈ order, cr i = none) → split_and_transcribe m cr order = none) := by
  have hbase : transcribe_single_chunk_with_retry outcomes =
      retryGo outcomes (MAX_RETRIES - k) k ((List.range k).map (fun i => 2 ^ i)) := by
    unfold transcribe_single_chunk_with_retry
    rw [retryGo_transient_steps outcomes k MAX_RETRIES 0 [] (le_of_lt hk)
      (fun i hi => by simpa using hpre i hi)]
    simp
  refine ⟨?_, ?_, ?_, ?_, ?_⟩
  · unfold transcribe_single_chunk_with_retry
    simpa using retryGo_attempts_le outcomes MAX_RETRIES 0 []
  · intro hsucc
    obtain ⟨f, hf⟩ : ∃ f, MAX_RETRIES - k = f + 1 := ⟨MAX_RETRIES - k - 1, by omega⟩
    rw [hbase, hf, retryGo, hsucc]
  · intro hfat
    obtain ⟨f, hf⟩ : ∃ f, MAX_RETRIES - k = f + 1 := ⟨MAX_RETRIES - k - 1, by omega⟩
    rw [hbase, hf, retryGo, hfat]
  · intro g hg
    unfold transcribe_single_chunk_with_retry
    rw [retryGo_transient_steps g MAX_RETRIES MAX_RETRIES 0 [] le_rfl
      (fun i hi => by simpa using hg i hi)]
    simp [retryGo]
    decide
  · exact fun m cr order h => split_and_transcribe_none_of_failure m cr order h

/-- Witness for C4: one transient attempt followed by a success. -/
theorem chunk_retry_policy_witness :
    (1 < MAX_RETRIES ∧
      (∀ i < 1, (fun i => if i = 0 then AttemptOutcome.transient
        else AttemptOutcome.success (some " hello ")) i = AttemptOutcome.transient)) ∧
    transcribe_single_chunk_with_retry
        (fun i => if i = 0 then AttemptOutcome.transient
          else AttemptOutcome.success (some " hello ")) =
      (some (((some " hello ").getD "").trim), (List.range 1).map (fun i => 2 ^ i), 2) :=
  ⟨⟨by norm_num [MAX_RETRIES], by decide⟩,
    ((chunk_retry_policy
      (fun i => if i = 0 then AttemptOutcome.transient
        else AttemptOutcome.success (some " hello ")) 1 (some " hello ")
      (by norm_num [MAX_RETRIES]) (by decide)).2.1 (by decide))⟩

/-- Counterexample to C7 as stated: a valid 3-chunk run on 2 workers in
which chunk 0 fails first and chunk 2 — not yet started at that moment —
still starts and runs to completion afterwards.  All tasks were already
submitted before the failure; nothing stops the queued one. -/
theorem pool_start_after_failure_counterexample :
    ValidPoolTrace 3 2
      [PoolEvent.start 0, PoolEvent.start 1, PoolEvent.finish 0 false,
       PoolEvent.start 2, PoolEvent.finish 1 true, PoolEvent.finish 2 true] ∧
    noStartAfterFailure
      [PoolEvent.start 0, PoolEvent.start 1, PoolEvent.finish 0 false,
       PoolEvent.start 2, PoolEvent.finish 1 true, PoolEvent.finish 2 true] = false := by
  constructor
  · refine ⟨by decide, by decide, by decide, by decide⟩
  · decide

lemma chunkFinishFlag_none_result (tr : List PoolEvent) (texts : ℕ → String)
    (j : ℕ) (hflag : chunkFinishFlag tr j = some false) :
    (fun i => match chunkFinishFlag tr i with
      | some true => some (texts i)
      | _ => none) j = (none : Option String) := by
  simp [hflag]

/-- Claim C7, amended: all chunk tasks are submitted up front, so a
failure cancels nothing — in every trace the code admits, every chunk
(including those not yet started when a failure completes) starts and
finishes exactly once; and whenever some chunk finished with a failure,
the job result is `none`: the successful results collected from the
other tasks are discarded and the job is reported failed. -/
theorem pool_abort_semantics (n maxWorkers : ℕ) (tr : List PoolEvent)
    (texts : ℕ → String) (hval : ValidPoolTrace n maxWorkers tr) :
    (∀ i < n, i ∈ startsOf tr ∧ i ∈ finishOrder tr) ∧
    (∀ j < n, chunkFinishFlag tr j = some false → traceJobResult tr texts n = none) := by
  obtain ⟨-, hcount, -, -⟩ := hval
  constructor
  · intro i hi
    obtain ⟨hs, hf⟩ := hcount i hi
    exact ⟨List.count_pos_iff.mp (by omega), List.count_pos_iff.mp (by omega)⟩
  · intro j hj hflag
    obtain ⟨hs, hf⟩ := hcount j hj
    unfold traceJobResult
    apply split_and_transcribe_none_of_failure
    exact ⟨j, List.count_pos_iff.mp (by omega),
      chunkFinishFlag_none_result tr texts j hflag⟩

/-- Witness for the amended C7 at the 3-chunk, 2-worker trace in which
chunk 0 fails before chunk 2 starts. -/
theorem pool_abort_semantics_witness :
    (∀ i < 3, i ∈ startsOf [PoolEvent.start 0, PoolEvent.start 1, PoolEvent.finish 0 false,
        PoolEvent.start 2, PoolEvent.finish 1 true, PoolEvent.finish 2 true] ∧
      i ∈ finishOrder [PoolEvent.start 0, PoolEvent.start 1, PoolEvent.finish 0 false,
        PoolEvent.start 2, PoolEvent.finish 1 true, PoolEvent.finish 2 true]) ∧
    (∀ j < 3, chunkFinishFlag [PoolEvent.start 0, PoolEvent.start 1, PoolEvent.finish 0 false,
        PoolEvent.start 2, PoolEvent.finish 1 true, PoolEvent.finish 2 true] j = some false →
      traceJobResult [PoolEvent.start 0, PoolEvent.start 1, PoolEvent.finish 0 false,
        PoolEvent.start 2, PoolEvent.finish 1 true, PoolEvent.finish 2 true]
        (fun _ => "txt") 3 = none) :=
  pool_abort_semantics 3 2
    [PoolEvent.start 0, PoolEvent.start 1, PoolEvent.finish 0 false,
     PoolEvent.start 2, PoolEvent.finish 1 true, PoolEvent.finish 2 true]
    (fun _ => "txt") ⟨by decide, by decide, by decide, by decide⟩

lemma lookupJob_updateWhere (s : JobStore) (id : String) (f : JobRecord → JobRecord) :
    lookupJob (updateWhere s id f) id = (lookupJob s id).map f := by
  induction s with
  | nil => rfl
  | cons e rest ih =>
      by_cases he : e.1 = id
      · simp [updateWhere, lookupJob, List.find?, he]
      · simpa [updateWhere, lookupJob, List.find?, he] using ih

lemma lookupJob_cons_ne (e : String × JobRecord) (s : JobStore) (j : String)
    (h : ¬ e.1 = j) : lookupJob (e :: s) j = lookupJob s j := by
  unfold lookupJob
  rw [List.find?_cons_of_neg _ (by simpa using h)]

lemma lookupJob_cons_eq (e : String × JobRecord) (s : JobStore) (j : String)
    (h : e.1 = j) : lookupJob (e :: s) j = some e.2 := by
  unfold lookupJob
  rw [List.find?_cons_of_pos _ (by simpa using h)]
  rfl

lemma lookupJob_updateWhere_ne (s : JobStore) (id j : String)
    (f : JobRecord → JobRecord) (h : id ≠ j) :
    lookupJob (updateWhere s id f) j = lookupJob s j := by
  induction s with
  | nil => rfl
  | cons e rest ih =>
      simp only [updateWhere, List.map_cons]
      by_cases he : e.1 = id
      · have hej : ¬ e.1 = j := by rw [he]; exact h
        rw [if_pos he]
        rw [lookupJob_cons_ne (e.1, f e.2) _ _ hej, lookupJob_cons_ne e _ _ hej]
        exact ih
      · by_cases hej : e.1 = j
        · rw [if_neg he]
          rw [lookupJob_cons_eq _ _ _ hej, lookupJob_cons_eq _ _ _ hej]
        · rw [if_neg he]
          rw [lookupJob_cons_ne _ _ _ hej, lookupJob_cons_ne _ _ _ hej]
          exact ih

lemma statusOf_updateWhere_preserve (s : JobStore) (id j : String)
    (f : JobRecord → JobRecord) (hf : ∀ r, (f r).status = r.status) :
    statusOf (updateWhere s id f) j = statusOf s j := by
  by_cases hij : id = j
  · subst hij
    unfold statusOf
    rw [lookupJob_updateWhere]
    cases lookupJob s id <;> simp [hf]
  · unfold statusOf
    rw [lookupJob_updateWhere_ne s id j f hij]

lemma statusOf_progress (s : JobStore) (id msg j : String) :
    statusOf (update_job_progress s id msg) j = statusOf s j := by
  unfold update_job_progress
  cases lookupJob s id with
  | none => rfl
  | some r => exact statusOf_updateWhere_preserve s id j _ (fun r => rfl)

lemma lookupJob_isSome_of_statusOf (s : JobStore) (j : String)
    (h : statusOf s j ≠ none) : (lookupJob s j).isSome = true := by
  unfold statusOf at h
  cases hl : lookupJob s j
  · rw [hl] at h; simp at h
  · rfl

lemma statusOf_fail_self (s : JobStore) (j m : String)
    (h : (lookupJob s j).isSome = true) :
    statusOf (set_job_error s j m) j = some "error" := by
  unfold set_job_error statusOf
  rw [lookupJob_updateWhere]
  have hsome : (lookupJob (update_job_progress s j ("ERROR: " ++ m)) j).isSome = true := by
    unfold update_job_progress
    cases hl : lookupJob s j with
    | none => rw [hl] at h; simp at h
    | some r =>
        rw [lookupJob_updateWhere, hl]
        rfl
  cases hl2 : lookupJob (update_job_progress s j ("ERROR: " ++ m)) j with
  | none => rw [hl2] at hsome; simp at hsome
  | some r => rfl

lemma statusOf_fail_other (s : JobStore) (id j m : String) (hij : id ≠ j) :
    statusOf (set_job_error s id m) j = statusOf s j := by
  unfold set_job_error statusOf
  rw [lookupJob_updateWhere_ne _ _ _ _ hij]
  unfold update_job_progress
  cases lookupJob s id with
  | none => rfl
  | some r => rw [lookupJob_updateWhere_ne _ _ _ _ hij]

lemma statusOf_succeed_self (s : JobStore) (j t l : String)
    (h : (lookupJob s j).isSome = true) :
    statusOf (finalize_job_success s j t l) j = some "finished" := by
  unfold finalize_job_success statusOf
  rw [lookupJob_updateWhere]
  have hsome : (lookupJob (update_job_progress s j
      "Transcription successful and saved.") j).isSome = true := by
    unfold update_job_progress
    cases hl : lookupJob s j with
    | none => rw [hl] at h; simp at h
    | some r =>
        rw [lookupJob_updateWhere, hl]
        rfl
  cases hl2 : lookupJob (update_job_progress s j
      "Transcription successful and saved.") j with
  | none => rw [hl2] at hsome; simp at hsome
  | some r => rfl

lemma statusOf_succeed_other (s : JobStore) (id j t l : String) (hij : id ≠ j) :
    statusOf (finalize_job_success s id t l) j = statusOf s j := by
  unfold finalize_job_success statusOf
  rw [lookupJob_updateWhere_ne _ _ _ _ hij]
  unfold update_job_progress
  cases lookupJob s id with
  | none => rfl
  | some r => rw [lookupJob_updateWhere_ne _ _ _ _ hij]

lemma applyOp_terminal (s : JobStore) (j : String) (op : TrackerOp)
    (hterm : TerminalStatus (statusOf s j)) (hop : isMarkStatus op = false) :
    TerminalStatus (statusOf (applyOp s op) j) := by
  have hne : statusOf s j ≠ none := by
    rcases hterm with h | h <;> simp [h]
  have hsome := lookupJob_isSome_of_statusOf s j hne
  cases op with
  | create id fn api =>
      simp only [applyOp, create_transcription_job]
      cases hl : lookupJob s id with
      | some r => exact hterm
      | none =>
          have hij : ¬ id = j := by
            intro h
            rw [h] at hl
            rw [hl] at hsome
            simp at hsome
          unfold statusOf
          rw [lookupJob_cons_ne _ _ _ hij]
          exact hterm
  | progress id m =>
      simp only [applyOp]
      rw [statusOf_progress]
      exact hterm
  | markStatus id st => simp [isMarkStatus] at hop
  | fail id m =>
      simp only [applyOp]
      by_cases hij : id = j
      · subst hij
        rw [statusOf_fail_self s id m hsome]
        exact Or.inr rfl
      · rw [statusOf_fail_other s id j m hij]
        exact hterm
  | succeed id t l =>
      simp only [applyOp]
      by_cases hij : id = j
      · subst hij
        rw [statusOf_succeed_self s id t l hsome]
        exact Or.inl rfl
      · rw [statusOf_succeed_other s id j t l hij]
        exact hterm

/-- Counterexample to C5 as stated: `update_job_status` performs an
unconditional `UPDATE`, so applying `markProcessing` to a job already in
the terminal state `finished` moves its status back to `processing` —
the operations themselves enforce no terminal-state guard. -/
theorem terminal_status_counterexample :
    statusOf [("j1", sampleFinishedJob)] "j1" = some "finished" ∧
    statusOf (update_job_status [("j1", sampleFinishedJob)] "j1" "processing") "j1" =
      some "processing" := by
  constructor <;> rfl

/-- Claim C5, amended: the terminal statuses are absorbing for
`create`, `appendProgress`, `finalizeSuccess` and `finalizeError` — once
the status of a job is `finished` or `error`, any sequence of these
operations leaves it in `{finished, error}` (a repeated finalize may
swap one terminal status for the other).  `update_job_status`
(markProcessing), however, overwrites the status unconditionally, so the
monotone `pending → processing → finished | error` lifecycle holds only
because the service calls it exactly once, before finalization. -/
theorem terminal_states_absorbing (s : JobStore) (j : String) (ops : List TrackerOp)
    (hterm : TerminalStatus (statusOf s j))
    (hops : ∀ op ∈ ops, isMarkStatus op = false) :
    TerminalStatus (statusOf (applyOps s ops) j) ∧
    (∀ st : String, (lookupJob s j).isSome = true →
      statusOf (update_job_status s j st) j = some st) := by
  constructor
  · induction ops generalizing s with
    | nil => exact hterm
    | cons op rest ih =>
        rw [applyOps, List.foldl_cons]
        exact ih (applyOp s op)
          (applyOp_terminal s j op hterm (hops op (List.mem_cons_self op rest)))
          (fun o ho => hops o (List.mem_cons_of_mem op ho))
  · intro st h
    unfold update_job_status statusOf
    rw [lookupJob_updateWhere]
    cases hl : lookupJob s j with
    | none => rw [hl] at h; simp at h
    | some r => rfl

/-- Witness for the amended C5: a finished job survives a finalizeError,
a progress append and a duplicate create with terminal status. -/
theorem terminal_states_absorbing_witness :
    TerminalStatus (statusOf (applyOps [("j1", sampleFinishedJob)]
      [TrackerOp.fail "j1" "late failure", TrackerOp.progress "j1" "poll",
       TrackerOp.create "j1" "c.mp3" "gpt4o"]) "j1") ∧
    (∀ st : String, (lookupJob [("j1", sampleFinishedJob)] "j1").isSome = true →
      statusOf (update_job_status [("j1", sampleFinishedJob)] "j1" st) "j1" = some st) :=
  terminal_states_absorbing [("j1", sampleFinishedJob)] "j1"
    [TrackerOp.fail "j1" "late failure", TrackerOp.progress "j1" "poll",
     TrackerOp.create "j1" "c.mp3" "gpt4o"]
    (Or.inl rfl) (by decide)

lemma transcriptOf_updateWhere_preserve (s : JobStore) (id j : String)
    (f : JobRecord → JobRecord)
    (hf : ∀ r, (f r).transcription_text = r.transcription_text) :
    transcriptOf (updateWhere s id f) j = transcriptOf s j := by
  by_cases hij : id = j
  · subst hij
    unfold transcriptOf
    rw [lookupJob_updateWhere]
    cases lookupJob s id <;> simp [hf]
  · unfold transcriptOf
    rw [lookupJob_updateWhere_ne _ _ _ _ hij]

lemma transcriptOf_progress (s : JobStore) (id msg j : String) :
    transcriptOf (update_job_progress s id msg) j = transcriptOf s j := by
  unfold update_job_progress
  cases lookupJob s id with
  | none => rfl
  | some r => exact transcriptOf_updateWhere_preserve s id j _ (fun r => rfl)

lemma applyOp_no_transcript (s : JobStore) (j : String) (op : TrackerOp)
    (hnone : transcriptOf s j = none) (hop : isSucceed op = false) :
    transcriptOf (applyOp s op) j = none := by
  cases op with
  | create id fn api =>
      simp only [applyOp, create_transcription_job]
      cases hl : lookupJob s id with
      | some r => exact hnone
      | none =>
          by_cases hij : id = j
          · unfold transcriptOf
            rw [lookupJob_cons_eq _ _ _ hij]
          · unfold transcriptOf
            rw [lookupJob_cons_ne _ _ _ hij]
            exact hnone
  | progress id m =>
      simp only [applyOp]
      rw [transcriptOf_progress]
      exact hnone
  | markStatus id st =>
      simp only [applyOp]
      unfold update_job_status
      exact (transcriptOf_updateWhere_preserve s id j
        (fun r => { r with status := st }) (fun r => rfl)).trans hnone
  | fail id m =>
      simp only [applyOp]
      unfold set_job_error
      exact (transcriptOf_updateWhere_preserve _ id j
        (fun r => { r with status := "error", error_message := some m })
        (fun r => rfl)).trans ((transcriptOf_progress s id _ j).trans hnone)
  | succeed id t l => simp [isSucceed] at hop

/-- Claim C6: all-or-nothing on failure.  A job never touched by
`finalize_job_success` keeps a NULL transcript through any sequence of
the other tracker operations — in particular a job that ends in `error`
persists no transcript text; `set_job_error(m)` sets the `error` status
and message and appends "ERROR: m" to the progress log, leaving the
transcript column untouched; and at the orchestrator level any chunk
failure makes `_split_and_transcribe` return `none`, so partial chunk
successes are discarded and only the failure message survives. -/
theorem error_jobs_persist_no_transcript (s : JobStore) (j m : String)
    (ops : List TrackerOp)
    (hops : ∀ op ∈ ops, isSucceed op = false)
    (hnone : transcriptOf s j = none) :
    transcriptOf (applyOps s ops) j = none ∧
    (∀ r, lookupJob s j = some r →
      lookupJob (set_job_error s j m) j =
        some { r with
                status := "error",
                error_message := some m,
                progress_log := r.progress_log ++ ["ERROR: " ++ m] }) ∧
    (∀ (n : ℕ) (cr : ℕ → Option String) (order : List ℕ),
      (∃ i ∈ order, cr i = none) → split_and_transcribe n cr order = none) := by
  refine ⟨?_, ?_, ?_⟩
  · induction ops generalizing s with
    | nil => exact hnone
    | cons op rest ih =>
        rw [applyOps, List.foldl_cons]
        exact ih (applyOp s op)
          (fun o ho => hops o (List.mem_cons_of_mem op ho))
          (applyOp_no_transcript s j op hnone (hops op (List.mem_cons_self op rest)))
  · intro r hr
    unfold set_job_error
    have h2 : lookupJob (update_job_progress s j ("ERROR: " ++ m)) j =
        some { r with progress_log := r.progress_log ++ ["ERROR: " ++ m] } := by
      unfold update_job_progress
      rw [hr, lookupJob_updateWhere, hr]
      rfl
    rw [lookupJob_updateWhere, h2]
    rfl
  · exact fun n cr order h => split_and_transcribe_none_of_failure n cr order h

/-- Witness for C6: a pending job receives progress updates and a
finalizeError; its transcript stays NULL. -/
theorem error_jobs_persist_no_transcript_witness :
    transcriptOf (applyOps [("j1", samplePendingJob)]
      [TrackerOp.markStatus "j1" "processing", TrackerOp.progress "j1" "chunk 1 done",
       TrackerOp.fail "j1" "boom"]) "j1" = none ∧
    (∀ r, lookupJob [("j1", samplePendingJob)] "j1" = some r →
      lookupJob (set_job_error [("j1", samplePendingJob)] "j1" "boom") "j1" =
        some { r with
                status := "error",
                error_message := some "boom",
                progress_log := r.progress_log ++ ["ERROR: " ++ "boom"] }) ∧
    (∀ (n : ℕ) (cr : ℕ → Option String) (order : List ℕ),
      (∃ i ∈ order, cr i = none) → split_and_transcribe n cr order = none) :=
  error_jobs_persist_no_transcript [("j1", samplePendingJob)] "j1" "boom"
    [TrackerOp.markStatus "j1" "processing", TrackerOp.progress "j1" "chunk 1 done",
     TrackerOp.fail "j1" "boom"]
    (by decide) rfl

/-- Claim C10: `update_job_progress` called with an id that is not in the
store returns the store unchanged — no row is created and no existing
row is modified. -/
theorem progress_nonexistent_job_noop (s : JobStore) (id msg : String)
    (h : lookupJob s id = none) :
    update_job_progress s id msg = s := by
  unfold update_job_progress
  rw [h]

/-- Witness for C10: appending progress for an unknown id leaves a
one-job store identical. -/
theorem progress_nonexistent_job_noop_witness :
    update_job_progress [("j1", samplePendingJob)] "ghost" "hello" =
      [("j1", samplePendingJob)] :=
  progress_nonexistent_job_noop [("j1", samplePendingJob)] "ghost" "hello" rfl

end Transcriber



